import Mathlib

set_option maxRecDepth 10000

/-!
Verification development for the ink-merkle-airdrop repository's offline
Merkle-tree engine and artifact pipeline
(frontend/src/lib/merkle_tree.ts and the setup_airdrop script).

Byte strings (`Uint8Array`) are modelled as `List Nat`; JavaScript `bigint`
is modelled as `Int`. The keccak_256 hash function is an opaque parameter
`hash : List Nat → List Nat` of every definition: all properties proved here
are independent of the concrete hash, and concrete examples instantiate it
with a simple computable stand-in.
-/

/-- Models the hexadecimal value of one character, as used by ethers'
`getBytes` when decoding a hex string (`0-9`, `a-f`, `A-F`). -/
def hexVal (c : Char) : Option Nat :=
  if '0' ≤ c ∧ c ≤ '9' then some (c.toNat - 48)
  else if 'a' ≤ c ∧ c ≤ 'f' then some (c.toNat - 87)
  else if 'A' ≤ c ∧ c ≤ 'F' then some (c.toNat - 70)
  else none

/-- Decodes an even-length run of hex characters into bytes, two characters
per byte, failing on an odd count or a non-hex character. -/
def hexPairsToBytes : List Char → Option (List Nat)
  | [] => some []
  | [_] => none
  | c1 :: c2 :: rest =>
    match hexVal c1, hexVal c2, hexPairsToBytes rest with
    | some hi, some lo, some bs => some ((16 * hi + lo) :: bs)
    | _, _, _ => none

/-- Models ethers' `getBytes` on a string argument: the string must consist of
`0x` followed by an even number of hex digits; otherwise ethers throws
(modelled as `none`). Note there is no length requirement whatsoever. -/
def getBytes (s : String) : Option (List Nat) :=
  match s.data with
  | '0' :: 'x' :: rest => hexPairsToBytes rest
  | _ => none

/-- Big-endian byte representation of a natural number in exactly `w` bytes
(most significant byte first). -/
def beBytes (v : Nat) : Nat → List Nat
  | 0 => []
  | w + 1 => beBytes (v / 256) w ++ [v % 256]

/-- Models `getBytes(toBeHex(value, w))` from ethers: `toBeHex` renders a
non-negative value that fits in `w` bytes as big-endian hex and throws
otherwise (modelled as `none`); `getBytes` then yields the `w` bytes. -/
def toBeHexBytes (v : Int) (w : Nat) : Option (List Nat) :=
  if 0 ≤ v ∧ v < (2 : Int) ^ (8 * w) then some (beBytes v.toNat w) else none

/-- A hex digit character (lowercase), as produced by
`Buffer.toString("hex")` and by `b.toString(16)`. -/
def hexDigit (n : Nat) : Char :=
  if n < 10 then Char.ofNat (48 + n) else Char.ofNat (87 + n)

/-- Two lowercase hex characters for one byte. -/
def byteToHexChars (b : Nat) : List Char :=
  [hexDigit (b / 16 % 16), hexDigit (b % 16)]

/-- Models `"0x" + Buffer.from(bytes).toString("hex")`: a `0x`-prefixed
lowercase hex rendering of a byte string. -/
def bytesToHex (bs : List Nat) : String :=
  "0x" ++ String.mk ((bs.map byteToHexChars).flatten)

/-- Digit characters folded into a natural number, most significant first. -/
def digitsToNat (cs : List Char) : Nat :=
  cs.foldl (fun acc c => 10 * acc + (c.toNat - 48)) 0

/-- Models the JavaScript `BigInt(string)` conversion for the string shapes
the pipeline feeds it: an optional leading minus sign followed by decimal
digits converts; a string containing any non-digit (such as letters) throws a
`SyntaxError` (modelled as `none`). -/
def parseBigInt (s : String) : Option Int :=
  match s.data with
  | [] => some 0
  | '-' :: ds =>
    if ds ≠ [] ∧ ds.all Char.isDigit then some (-(digitsToNat ds : Int)) else none
  | ds =>
    if ds.all Char.isDigit then some ((digitsToNat ds : Int)) else none

/-- The record behind one row of leaf input, `LeafData` in merkle_tree.ts:
a recipient address string and a bigint value. -/
structure LeafData where
  recipient : String
  value : Int
deriving DecidableEq, Repr

instance : Inhabited LeafData := ⟨⟨"", 0⟩⟩

namespace MerkleTree

/-- `MerkleTree.hashPair`: hashes two child nodes into a parent node,
`keccak256(left || right)` — the hash of the plain concatenation. -/
def hashPair (hash : List Nat → List Nat) (left right : List Nat) : List Nat :=
  hash (left ++ right)

/-- `MerkleTree.encodeLeaf`: `keccak256(getBytes(recipient) || getBytes(toBeHex(value, 32)))`.
The address bytes are whatever `getBytes` decodes — there is no 20-byte length
check — and the value is rendered as exactly 32 big-endian bytes. Errors
thrown by `getBytes` or `toBeHex` are modelled as `Except.error`. -/
def encodeLeaf (hash : List Nat → List Nat) (recipient : String) (value : Int) :
    Except String (List Nat) :=
  match getBytes recipient with
  | none => Except.error ("invalid BytesLike value")
  | some addr =>
    match toBeHexBytes value 32 with
    | none => Except.error ("value out of range")
    | some val => Except.ok (hash (addr ++ val))

/-- One iteration of `buildTree`'s inner `for` loop over a level: adjacent
elements are paired and hashed; the unpaired last element of an odd-length
level is paired with itself (`right = left` when `i + 1` is out of range). -/
def nextLevel (hash : List Nat → List Nat) : List (List Nat) → List (List Nat)
  | [] => []
  | [a] => [hashPair hash a a]
  | a :: b :: rest => hashPair hash a b :: nextLevel hash rest

/-- The `while (currentLevel.length > 1)` loop of `buildTree`, pushing every
level (the leaves first). The fuel argument bounds the number of iterations;
`level.length` iterations always suffice, and `buildLevels` below instantiates
the fuel that way, which `buildLevels_unfold` proves equivalent to the
unbounded loop. -/
def buildLevelsF (hash : List Nat → List Nat) : Nat → List (List Nat) → List (List (List Nat))
  | 0, level => [level]
  | fuel + 1, level =>
    if 1 < level.length then level :: buildLevelsF hash fuel (nextLevel hash level)
    else [level]

/-- The levels `buildTree` pushes onto `this.tree` for a non-empty leaf list:
the leaves, then each successive `nextLevel`, ending with the single-element
root level. -/
def buildLevels (hash : List Nat → List Nat) (leaves : List (List Nat)) :
    List (List (List Nat)) :=
  buildLevelsF hash leaves.length leaves

/-- The `root = currentLevel[0]` value at the end of `buildTree`'s loop,
computed by the same iteration (fuelled like `buildLevelsF`). -/
def rootValueF (hash : List Nat → List Nat) : Nat → List (List Nat) → List Nat
  | 0, level => level.getD 0 []
  | fuel + 1, level =>
    if 1 < level.length then rootValueF hash fuel (nextLevel hash level)
    else level.getD 0 []

/-- The root digest `buildTree` assigns for a non-empty leaf list. -/
def rootValue (hash : List Nat → List Nat) (leaves : List (List Nat)) : List Nat :=
  rootValueF hash leaves.length leaves

end MerkleTree

/-- The `MerkleTree` object's state after construction: the encoded leaves,
the list of levels (`this.tree`) and the root (`null` — modelled as `none` —
exactly when the leaf list was empty). -/
structure MerkleTree where
  leaves : List (List Nat)
  tree : List (List (List Nat))
  root : Option (List Nat)
deriving DecidableEq, Repr

namespace MerkleTree

/-- `buildTree` as invoked by the constructor on already-encoded leaves:
an empty leaf list yields an empty `tree` and a `null` root (no error is
thrown); otherwise all levels are built and the root is the head of the last
level. -/
def buildTree (hash : List Nat → List Nat) (leaves : List (List Nat)) : MerkleTree :=
  if leaves.length = 0 then { leaves := leaves, tree := [], root := none }
  else { leaves := leaves, tree := buildLevels hash leaves, root := some (rootValue hash leaves) }

/-- `this.leaves = leafData.map(encodeLeaf ...)`: the constructor's encoding
pass, propagating the first encoding error. -/
def encodeAll (hash : List Nat → List Nat) : List LeafData → Except String (List (List Nat))
  | [] => Except.ok []
  | d :: ds =>
    match encodeLeaf hash d.recipient d.value with
    | Except.error e => Except.error e
    | Except.ok leaf =>
      match encodeAll hash ds with
      | Except.error e => Except.error e
      | Except.ok rest => Except.ok (leaf :: rest)

/-- The `MerkleTree` constructor: encode every `LeafData` entry, then run
`buildTree`. -/
def ofLeafData (hash : List Nat → List Nat) (leafData : List LeafData) :
    Except String MerkleTree :=
  match encodeAll hash leafData with
  | Except.error e => Except.error e
  | Except.ok leaves => Except.ok (buildTree hash leaves)

/-- The `for (let level = 0; level < this.tree.length - 1; level++)` loop of
`getProof`: at each level below the root level, push the sibling
(`index XOR 1`), or the current node itself when the sibling index falls off
the end of an odd-length level, then halve the index. -/
def getProofLoop : List (List (List Nat)) → Nat → List (List Nat)
  | [], _ => []
  | [_], _ => []
  | lvl :: l2 :: rest, idx =>
    let sib := if idx % 2 == 0 then idx + 1 else idx - 1
    (if sib < lvl.length then lvl.getD sib [] else lvl.getD idx []) ::
      getProofLoop (l2 :: rest) (idx / 2)

/-- `MerkleTree.getProof`: bounds-check the index against the leaf count
(throwing — modelled as `Except.error` — when out of range), then collect the
sibling path. -/
def getProof (t : MerkleTree) (index : Nat) : Except String (List (List Nat)) :=
  if t.leaves.length ≤ index then Except.error ("Leaf index out of bounds.")
  else Except.ok (getProofLoop t.tree index)

/-- The `for (const sibling of proof)` loop of `verifyProof`: fold each
sibling into the running digest, on the left or right according to the
parity of the running index, halving the index each step. -/
def verifyLoop (hash : List Nat → List Nat) :
    List Nat → List (List Nat) → Nat → List Nat
  | computed, [], _ => computed
  | computed, sibling :: rest, idx =>
    verifyLoop hash
      (if idx % 2 == 0 then hashPair hash computed sibling else hashPair hash sibling computed)
      rest (idx / 2)

/-- `MerkleTree.bytesEqual`: length check followed by an element-by-element
comparison loop. -/
def bytesEqual (a b : List Nat) : Bool :=
  if a.length = b.length then (List.range a.length).all (fun i => a.getD i 0 == b.getD i 0)
  else false

/-- `MerkleTree.verifyProof`: recompute the root from leaf, proof and index,
and compare it byte-wise with the expected root. -/
def verifyProof (hash : List Nat → List Nat) (leaf : List Nat) (proof : List (List Nat))
    (index : Nat) (root : List Nat) : Bool :=
  bytesEqual (verifyLoop hash leaf proof index) root

end MerkleTree

/-- One parsed CSV record of the setup_airdrop script (header
`address,amount`); a missing column is modelled as the empty string, matching
the script's falsiness check. -/
structure CsvRow where
  address : String
  amount : String
deriving DecidableEq, Repr

instance : Inhabited CsvRow := ⟨⟨"", ""⟩⟩

/-- The `JSON.stringify(row)` rendering used in `loadCSV`'s error message. -/
def rowJsonString (row : CsvRow) : String :=
  "\x7b\"address\":\"" ++ row.address ++ "\",\"amount\":\"" ++ row.amount ++ "\"\x7d"

/-- The address normalisation in `loadCSV`: prepend `0x` when absent. -/
def normalizeAddress (a : String) : String :=
  if ("0x").data.isPrefixOf a.data then a else "0x" ++ a

/-- `loadCSV`'s mapping over the parsed records: a row with a falsy address or
amount throws `Invalid CSV row: ...`; otherwise the amount is converted with
`BigInt(row.amount)` (whose `SyntaxError` on a non-numeric string is modelled
as `Except.error` carrying its message, which names the offending value and
not the row's position). The first failing row aborts the whole map. -/
def loadCSV : List CsvRow → Except String (List LeafData)
  | [] => Except.ok []
  | row :: rest =>
    if row.address = "" ∨ row.amount = "" then
      Except.error ("Invalid CSV row: " ++ rowJsonString row)
    else
      match parseBigInt row.amount with
      | none => Except.error ("Cannot convert " ++ row.amount ++ " to a BigInt")
      | some v =>
        match loadCSV rest with
        | Except.error e => Except.error e
        | Except.ok ls => Except.ok ({ recipient := normalizeAddress row.address, value := v } :: ls)

/-- The object `setupAirdrop` returns: the parsed leaf data, the constructed
tree, the (non-null asserted) root, and the total supply. -/
structure SetupResult where
  leafData : List LeafData
  tree : MerkleTree
  root : List Nat
  totalSupply : Int
deriving DecidableEq, Repr

/-- `setupAirdrop` on the parsed CSV records (the file read itself is outside
the model): load the rows, throw `CSV contains no valid entries` when no
entries result, build the tree, and sum all amounts with
`reduce((acc, leaf) => acc + leaf.value, 0n)` — an exact bigint sum with no
256-bit bound check anywhere. -/
def setupAirdrop (hash : List Nat → List Nat) (rows : List CsvRow) :
    Except String SetupResult :=
  match loadCSV rows with
  | Except.error e => Except.error e
  | Except.ok leafData =>
    if leafData.length = 0 then Except.error ("CSV contains no valid entries")
    else
      match MerkleTree.ofLeafData hash leafData with
      | Except.error e => Except.error e
      | Except.ok tree =>
        Except.ok
          { leafData := leafData
            tree := tree
            root := tree.root.getD []
            totalSupply := leafData.foldl (fun acc leaf => acc + leaf.value) 0 }

/-- The JSON values the script's main block assembles. -/
inductive Json where
  | str (s : String)
  | arr (elems : List Json)
  | obj (fields : List (String × Json))
deriving Repr

/-- The field names of a JSON object (empty for non-objects). -/
def objKeys : Json → List String
  | Json.obj fields => fields.map Prod.fst
  | _ => []

/-- Looks up a field of a JSON object. -/
def jGet (k : String) : Json → Option Json
  | Json.obj fields => fields.lookup k
  | _ => none

/-- The elements of the artifact's `leaves` array. -/
def leafObjs (j : Json) : List Json :=
  match jGet ("leaves") j with
  | some (Json.arr xs) => xs
  | _ => []

/-- The `setup.leafData.map((leaf, i) => ({recipient, value, proof}))` of the
main block: each entry carries exactly a `recipient`, a `value` and a `proof`
field — the object literal contains no `index` property. An out-of-range
`getProof` throw would abort the whole map (it never fires on these
in-range indices). -/
def leavesJson (t : MerkleTree) : List LeafData → Nat → Except String (List Json)
  | [], _ => Except.ok []
  | leaf :: rest, i =>
    match MerkleTree.getProof t i with
    | Except.error e => Except.error e
    | Except.ok p =>
      match leavesJson t rest (i + 1) with
      | Except.error e => Except.error e
      | Except.ok js =>
        Except.ok
          (Json.obj
            [("recipient", Json.str leaf.recipient),
             ("value", Json.str (toString leaf.value)),
             ("proof", Json.arr (p.map (fun b => Json.str (bytesToHex b))))] :: js)

/-- The script's main block: run `setupAirdrop` and assemble the JSON written
to `airdrop_setup.json`. An `Except.error` result models an aborted run in
which no artifact file is written (the write happens only after this value is
fully assembled). -/
def airdropJson (hash : List Nat → List Nat) (rows : List CsvRow) : Except String Json :=
  match setupAirdrop hash rows with
  | Except.error e => Except.error e
  | Except.ok setup =>
    match leavesJson setup.tree setup.leafData 0 with
    | Except.error e => Except.error e
    | Except.ok ls =>
      Except.ok
        (Json.obj
          [("root", Json.str (bytesToHex setup.root)),
           ("totalSupply", Json.str (toString setup.totalSupply)),
           ("leaves", Json.arr ls)])

/-- A simple concrete stand-in for the abstract hash parameter, used to
instantiate the hash-generic theorems on concrete inputs. -/
def hLen (bs : List Nat) : List Nat := [bs.length % 256]

namespace MerkleTree

theorem nextLevel_length (hash : List Nat → List Nat) :
    ∀ L : List (List Nat), (nextLevel hash L).length = (L.length + 1) / 2
  | [] => by simp [nextLevel]
  | [_] => by simp [nextLevel]
  | _ :: _ :: rest => by
    simp only [nextLevel, List.length_cons, nextLevel_length hash rest]
    omega

theorem nextLevel_getD (hash : List Nat → List Nat) :
    ∀ (L : List (List Nat)) (j : Nat), 2 * j < L.length →
      (nextLevel hash L).getD j []
        = hashPair hash (L.getD (2 * j) [])
            (if 2 * j + 1 < L.length then L.getD (2 * j + 1) [] else L.getD (2 * j) [])
  | [], j, h => by simp at h
  | [a], j, h => by
    have hj : j = 0 := by simp at h; omega
    subst hj
    simp [nextLevel]
  | a :: b :: rest, j, h => by
    cases j with
    | zero =>
      have hc : 0 + 1 < (a :: b :: rest).length := by simp
      simp [nextLevel, if_pos hc]
    | succ j' =>
      have h' : 2 * j' < rest.length := by
        simp only [List.length_cons] at h; omega
      have ih := nextLevel_getD hash rest j' h'
      have e2 : 2 * (j' + 1) = 2 * j' + 1 + 1 := by omega
      have e3 : 2 * (j' + 1) + 1 = 2 * j' + 1 + 1 + 1 := by omega
      have e4 : (2 * j' + 1 + 1 + 1 < rest.length + 1 + 1) = (2 * j' + 1 < rest.length) := by
        simp only [eq_iff_iff]
        omega
      simp only [nextLevel, e2, e3, List.getD_cons_succ, List.length_cons, e4]
      exact ih

theorem buildLevelsF_ne_nil (hash : List Nat → List Nat) (fuel : Nat) (L : List (List Nat)) :
    buildLevelsF hash fuel L ≠ [] := by
  cases fuel with
  | zero => simp [buildLevelsF]
  | succ fuel =>
    simp only [buildLevelsF]
    split <;> simp

theorem buildLevelsF_getD_zero (hash : List Nat → List Nat) (fuel : Nat) (L : List (List Nat)) :
    (buildLevelsF hash fuel L).getD 0 [] = L := by
  cases fuel with
  | zero => simp [buildLevelsF]
  | succ fuel =>
    simp only [buildLevelsF]
    split <;> simp

theorem buildLevelsF_fuel_congr (hash : List Nat → List Nat) :
    ∀ (f1 f2 : Nat) (L : List (List Nat)), L.length ≤ f1 → L.length ≤ f2 →
      buildLevelsF hash f1 L = buildLevelsF hash f2 L
  | 0, f2, L, h1, h2 => by
    have : L = [] := List.eq_nil_of_length_eq_zero (by omega)
    subst this
    cases f2 with
    | zero => rfl
    | succ f2 => simp [buildLevelsF]
  | f1 + 1, 0, L, h1, h2 => by
    have : L = [] := List.eq_nil_of_length_eq_zero (by omega)
    subst this
    simp [buildLevelsF]
  | f1 + 1, f2 + 1, L, h1, h2 => by
    simp only [buildLevelsF]
    by_cases h : 1 < L.length
    · rw [if_pos h, if_pos h,
        buildLevelsF_fuel_congr hash f1 f2 (nextLevel hash L)
          (by rw [nextLevel_length]; omega) (by rw [nextLevel_length]; omega)]
    · rw [if_neg h, if_neg h]

theorem rootValueF_fuel_congr (hash : List Nat → List Nat) :
    ∀ (f1 f2 : Nat) (L : List (List Nat)), L.length ≤ f1 → L.length ≤ f2 →
      rootValueF hash f1 L = rootValueF hash f2 L
  | 0, f2, L, h1, h2 => by
    have : L = [] := List.eq_nil_of_length_eq_zero (by omega)
    subst this
    cases f2 with
    | zero => rfl
    | succ f2 => simp [rootValueF]
  | f1 + 1, 0, L, h1, h2 => by
    have : L = [] := List.eq_nil_of_length_eq_zero (by omega)
    subst this
    simp [rootValueF]
  | f1 + 1, f2 + 1, L, h1, h2 => by
    simp only [rootValueF]
    by_cases h : 1 < L.length
    · rw [if_pos h, if_pos h,
        rootValueF_fuel_congr hash f1 f2 (nextLevel hash L)
          (by rw [nextLevel_length]; omega) (by rw [nextLevel_length]; omega)]
    · rw [if_neg h, if_neg h]

/-- The fuelled level builder with fuel `level.length` satisfies exactly the
recurrence of `buildTree`'s unbounded `while` loop, showing the fuel never
cuts an iteration short. -/
theorem buildLevels_unfold (hash : List Nat → List Nat) (L : List (List Nat)) :
    buildLevels hash L
      = if 1 < L.length then L :: buildLevels hash (nextLevel hash L) else [L] := by
  unfold buildLevels
  by_cases h : 1 < L.length
  · rw [if_pos h]
    cases hl : L.length with
    | zero => omega
    | succ n =>
      simp only [buildLevelsF, hl, if_pos (by omega : 1 < Nat.succ n)]
      rw [buildLevelsF_fuel_congr hash n (nextLevel hash L).length (nextLevel hash L)
        (by rw [nextLevel_length]; omega) (le_refl _)]
  · rw [if_neg h]
    cases hl : L.length with
    | zero =>
      have : L = [] := List.eq_nil_of_length_eq_zero hl
      subst this
      rfl
    | succ n =>
      simp only [buildLevelsF, hl]
      rw [if_neg (by omega : ¬ 1 < Nat.succ n)]

/-- The fuelled root computation likewise satisfies the `while` loop's
recurrence. -/
theorem rootValue_unfold (hash : List Nat → List Nat) (L : List (List Nat)) :
    rootValue hash L
      = if 1 < L.length then rootValue hash (nextLevel hash L) else L.getD 0 [] := by
  unfold rootValue
  by_cases h : 1 < L.length
  · rw [if_pos h]
    cases hl : L.length with
    | zero => omega
    | succ n =>
      simp only [rootValueF, hl, if_pos (by omega : 1 < Nat.succ n)]
      rw [rootValueF_fuel_congr hash n (nextLevel hash L).length (nextLevel hash L)
        (by rw [nextLevel_length]; omega) (le_refl _)]
  · rw [if_neg h]
    cases hl : L.length with
    | zero =>
      have : L = [] := List.eq_nil_of_length_eq_zero hl
      subst this
      rfl
    | succ n =>
      simp only [rootValueF, hl]
      rw [if_neg (by omega : ¬ 1 < Nat.succ n)]

end MerkleTree

namespace MerkleTree

/-- The length-then-elements comparison loop of `bytesEqual` decides exactly
list equality. -/
theorem bytesEqual_iff (a b : List Nat) : bytesEqual a b = true ↔ a = b := by
  constructor
  · intro h
    unfold bytesEqual at h
    split at h
    · next hlen =>
      refine List.ext_getElem hlen (fun i h1 h2 => ?_)
      have hi := (List.all_eq_true.mp h) i (List.mem_range.mpr h1)
      simp only [beq_iff_eq] at hi
      rwa [List.getD_eq_getElem a 0 h1, List.getD_eq_getElem b 0 h2] at hi
    · exact absurd h (by simp)
  · rintro rfl
    unfold bytesEqual
    rw [if_pos rfl]
    exact List.all_eq_true.mpr (fun i _ => by simp)

theorem getProofLoop_cons (lvl : List (List Nat)) (rest : List (List (List Nat))) (idx : Nat)
    (h : rest ≠ []) :
    getProofLoop (lvl :: rest) idx
      = (if (if idx % 2 == 0 then idx + 1 else idx - 1) < lvl.length
          then lvl.getD (if idx % 2 == 0 then idx + 1 else idx - 1) []
          else lvl.getD idx []) :: getProofLoop rest (idx / 2) := by
  cases rest with
  | nil => exact absurd rfl h
  | cons r rs => rfl

/-- Core round-trip invariant of the tree: at every fuel sufficient to finish
the build, folding the proof collected from the built levels back onto the
leaf at `idx` reproduces the loop's root. -/
theorem verifyLoop_getProofLoop (hash : List Nat → List Nat) :
    ∀ (fuel : Nat) (L : List (List Nat)) (idx : Nat), L.length ≤ fuel → idx < L.length →
      verifyLoop hash (L.getD idx []) (getProofLoop (buildLevelsF hash fuel L) idx) idx
        = rootValueF hash fuel L := by
  intro fuel
  induction fuel with
  | zero => intro L idx h1 h2; omega
  | succ fuel ih =>
    intro L idx h1 h2
    by_cases hlen : 1 < L.length
    · have hB := buildLevelsF_ne_nil hash fuel (nextLevel hash L)
      have hnl : (nextLevel hash L).length = (L.length + 1) / 2 := nextLevel_length hash L
      have hidx2 : idx / 2 < (nextLevel hash L).length := by omega
      have hfuel2 : (nextLevel hash L).length ≤ fuel := by omega
      simp only [buildLevelsF, rootValueF, if_pos hlen]
      rw [getProofLoop_cons _ _ _ hB]
      rcases Nat.mod_two_eq_zero_or_one idx with hp | hp
      · have hget := nextLevel_getD hash L (idx / 2) (by omega)
        have h2i : 2 * (idx / 2) = idx := by omega
        rw [h2i] at hget
        simp only [verifyLoop, hp, Nat.reduceBeqDiff, if_true]
        rw [← hget]
        exact ih (nextLevel hash L) (idx / 2) hfuel2 hidx2
      · have hget := nextLevel_getD hash L (idx / 2) (by omega)
        have e2 : 2 * (idx / 2) + 1 = idx := by omega
        have e1 : 2 * (idx / 2) = idx - 1 := by omega
        rw [e2] at hget
        rw [e1] at hget
        rw [if_pos h2] at hget
        simp only [verifyLoop, hp, Nat.reduceBeqDiff, Bool.false_eq_true, if_false]
        rw [if_pos (by omega : idx - 1 < L.length), ← hget]
        exact ih (nextLevel hash L) (idx / 2) hfuel2 hidx2
    · have hL1 : L.length = 1 := by omega
      obtain ⟨a, rfl⟩ := List.length_eq_one.mp hL1
      have hidx0 : idx = 0 := by omega
      subst hidx0
      simp [buildLevelsF, rootValueF, if_neg hlen, getProofLoop, verifyLoop]

end MerkleTree

namespace MerkleTree

theorem buildLevelsF_levels_length (hash : List Nat → List Nat) :
    ∀ (fuel : Nat) (L : List (List Nat)) (k : Nat), L.length ≤ fuel →
      k + 1 < (buildLevelsF hash fuel L).length →
      ((buildLevelsF hash fuel L).getD (k + 1) []).length
        = (((buildLevelsF hash fuel L).getD k []).length + 1) / 2 := by
  intro fuel
  induction fuel with
  | zero =>
    intro L k h1 h2
    simp only [buildLevelsF, List.length_cons, List.length_nil] at h2
    omega
  | succ fuel ih =>
    intro L k h1 h2
    by_cases hlen : 1 < L.length
    · simp only [buildLevelsF, if_pos hlen] at h2 ⊢
      cases k with
      | zero =>
        simp only [List.getD_cons_succ, List.getD_cons_zero,
          buildLevelsF_getD_zero, nextLevel_length]
      | succ k' =>
        simp only [List.getD_cons_succ]
        exact ih (nextLevel hash L) k'
          (by rw [nextLevel_length]; omega)
          (by simp only [List.length_cons] at h2; omega)
    · simp only [buildLevelsF, if_neg hlen, List.length_cons, List.length_nil] at h2
      omega

theorem getLast?_cons_ne_nil {α : Type} (a : α) (l : List α) (h : l ≠ []) :
    (a :: l).getLast? = l.getLast? := by
  cases l with
  | nil => exact absurd rfl h
  | cons b bs => exact List.getLast?_cons_cons

theorem buildLevelsF_getLast (hash : List Nat → List Nat) :
    ∀ (fuel : Nat) (L : List (List Nat)), L ≠ [] → L.length ≤ fuel →
      (buildLevelsF hash fuel L).getLast? = some [rootValueF hash fuel L] := by
  intro fuel
  induction fuel with
  | zero =>
    intro L h1 h2
    have := List.length_pos.mpr h1
    omega
  | succ fuel ih =>
    intro L h1 h2
    by_cases hlen : 1 < L.length
    · have hnext : (nextLevel hash L).length = (L.length + 1) / 2 := nextLevel_length hash L
      have hnn : nextLevel hash L ≠ [] := List.length_pos.mp (by omega)
      simp only [buildLevelsF, rootValueF, if_pos hlen]
      rw [getLast?_cons_ne_nil _ _ (buildLevelsF_ne_nil hash fuel (nextLevel hash L))]
      exact ih (nextLevel hash L) hnn (by omega)
    · have hpos := List.length_pos.mpr h1
      have hL1 : L.length = 1 := by omega
      obtain ⟨a, rfl⟩ := List.length_eq_one.mp hL1
      simp [buildLevelsF, rootValueF, if_neg hlen]

end MerkleTree

theorem foldl_add_value :
    ∀ (ld : List LeafData) (init : Int),
      ld.foldl (fun acc leaf => acc + leaf.value) init
        = init + (ld.map LeafData.value).sum
  | [], init => by simp
  | d :: ds, init => by
    simp only [List.foldl_cons, List.map_cons, List.sum_cons,
      foldl_add_value ds (init + d.value)]
    ring

theorem loadCSV_nonnumeric :
    ∀ (pre : List CsvRow) (row : CsvRow) (post : List CsvRow),
      (∃ ls, loadCSV pre = Except.ok ls) →
      row.address ≠ "" → row.amount ≠ "" → parseBigInt row.amount = none →
      loadCSV (pre ++ row :: post)
        = Except.error ("Cannot convert " ++ row.amount ++ " to a BigInt")
  | [], row, post, _, ha, hm, hnum => by
    simp only [List.nil_append, loadCSV, if_neg (not_or.mpr ⟨ha, hm⟩), hnum]
  | p :: pre, row, post, hpre, ha, hm, hnum => by
    obtain ⟨ls, hls⟩ := hpre
    simp only [loadCSV] at hls
    split at hls
    · exact absurd hls (by simp)
    · next hcond =>
      cases hparse : parseBigInt p.amount with
      | none => rw [hparse] at hls; exact absurd hls (by simp)
      | some v =>
        rw [hparse] at hls
        cases hrec : loadCSV pre with
        | error e => rw [hrec] at hls; exact absurd hls (by simp)
        | ok ls' =>
          have IH := loadCSV_nonnumeric pre row post ⟨ls', hrec⟩ ha hm hnum
          simp only [List.cons_append, loadCSV, if_neg hcond, hparse]
          rw [show pre.append (row :: post) = pre ++ row :: post from rfl, IH]

theorem leavesJson_keys (t : MerkleTree) :
    ∀ (ld : List LeafData) (i : Nat) (js : List Json),
      leavesJson t ld i = Except.ok js →
      ∀ j ∈ js, objKeys j = ["recipient", "value", "proof"]
  | [], i, js, h => by
    simp only [leavesJson] at h
    injection h with h
    subst h
    intro j hj
    simp at hj
  | leaf :: rest, i, js, h => by
    simp only [leavesJson] at h
    cases hp : MerkleTree.getProof t i with
    | error e => rw [hp] at h; exact absurd h (by simp)
    | ok p =>
      rw [hp] at h
      cases hrec : leavesJson t rest (i + 1) with
      | error e => rw [hrec] at h; exact absurd h (by simp)
      | ok js' =>
        rw [hrec] at h
        injection h with h
        subst h
        intro j hj
        rcases List.mem_cons.mp hj with hj | hj
        · subst hj; rfl
        · exact leavesJson_keys t rest (i + 1) js' hrec j hj

/-- C1: For every non-empty list of leaf digests and every valid index
`i < leaves.length`, building the Merkle tree from the leaves and then calling
`verifyProof(leaves[i], getProof(tree, i), i, tree.root)` returns true:
`getProof` succeeds with the collected sibling path, the root is non-null,
and verification of that path against that root succeeds. -/
theorem merkle_build_getProof_verify (hash : List Nat → List Nat)
    (leaves : List (List Nat)) (i : Nat) (h1 : leaves ≠ []) (h2 : i < leaves.length) :
    MerkleTree.getProof (MerkleTree.buildTree hash leaves) i
        = Except.ok (MerkleTree.getProofLoop (MerkleTree.buildTree hash leaves).tree i)
      ∧ (MerkleTree.buildTree hash leaves).root = some (MerkleTree.rootValue hash leaves)
      ∧ MerkleTree.verifyProof hash (leaves.getD i [])
          (MerkleTree.getProofLoop (MerkleTree.buildTree hash leaves).tree i) i
          (MerkleTree.rootValue hash leaves) = true := by
  have hlen0 : ¬ leaves.length = 0 := by
    have := List.length_pos.mpr h1
    omega
  have htree : MerkleTree.buildTree hash leaves
      = { leaves := leaves, tree := MerkleTree.buildLevels hash leaves,
          root := some (MerkleTree.rootValue hash leaves) } := by
    unfold MerkleTree.buildTree
    rw [if_neg hlen0]
  have hleaves : (MerkleTree.buildTree hash leaves).leaves = leaves := by
    unfold MerkleTree.buildTree
    split <;> rfl
  refine ⟨?_, ?_, ?_⟩
  · unfold MerkleTree.getProof
    rw [hleaves, if_neg (by omega : ¬ leaves.length ≤ i)]
  · rw [htree]
  · rw [htree]
    unfold MerkleTree.verifyProof
    rw [MerkleTree.bytesEqual_iff]
    exact MerkleTree.verifyLoop_getProofLoop hash leaves.length leaves i (le_refl _) h2

/-- Witness for C1: the concrete tree over leaf digests `[[0], [1], [2]]`
with the stand-in hash, at index 2. -/
theorem merkle_build_getProof_verify_witness :
    MerkleTree.getProof (MerkleTree.buildTree hLen [[0], [1], [2]]) 2
        = Except.ok (MerkleTree.getProofLoop (MerkleTree.buildTree hLen [[0], [1], [2]]).tree 2)
      ∧ (MerkleTree.buildTree hLen [[0], [1], [2]]).root
        = some (MerkleTree.rootValue hLen [[0], [1], [2]])
      ∧ MerkleTree.verifyProof hLen ([[0], [1], [2]].getD 2 [])
          (MerkleTree.getProofLoop (MerkleTree.buildTree hLen [[0], [1], [2]]).tree 2) 2
          (MerkleTree.rootValue hLen [[0], [1], [2]]) = true :=
  merkle_build_getProof_verify hLen [[0], [1], [2]] 2 (by decide) (by decide)

/-- C2: for any three leaf digests `l0, l1, l2`, the built tree's level 1 is
`[hashPair(l0,l1), hashPair(l2,l2)]` (the unpaired last element is hashed
with itself), its root is `hashPair(hashPair(l0,l1), hashPair(l2,l2))`, and
`getProof(tree, 2) = [l2, hashPair(l0,l1)]`. -/
theorem merkle_three_leaf_scenario (hash : List Nat → List Nat) (l0 l1 l2 : List Nat) :
    (MerkleTree.buildTree hash [l0, l1, l2]).tree.getD 1 []
        = [MerkleTree.hashPair hash l0 l1, MerkleTree.hashPair hash l2 l2]
      ∧ (MerkleTree.buildTree hash [l0, l1, l2]).root
        = some (MerkleTree.hashPair hash (MerkleTree.hashPair hash l0 l1)
            (MerkleTree.hashPair hash l2 l2))
      ∧ MerkleTree.getProof (MerkleTree.buildTree hash [l0, l1, l2]) 2
        = Except.ok [l2, MerkleTree.hashPair hash l0 l1] :=
  ⟨rfl, rfl, rfl⟩

/-- C3: for every non-empty leaf digest list, the built tree has `level[0]`
equal to the input leaves in input order, each level's length is the ceiling
of half the previous one (`(n + 1) / 2`), and the last level is exactly the
one-element list holding the root. -/
theorem merkle_tree_level_invariants (hash : List Nat → List Nat)
    (leaves : List (List Nat)) (h : leaves ≠ []) :
    (MerkleTree.buildTree hash leaves).tree.getD 0 [] = leaves
      ∧ (∀ k, k + 1 < (MerkleTree.buildTree hash leaves).tree.length →
          ((MerkleTree.buildTree hash leaves).tree.getD (k + 1) []).length
            = (((MerkleTree.buildTree hash leaves).tree.getD k []).length + 1) / 2)
      ∧ (MerkleTree.buildTree hash leaves).tree.getLast?
        = some [MerkleTree.rootValue hash leaves] := by
  have hlen0 : ¬ leaves.length = 0 := by
    have := List.length_pos.mpr h
    omega
  have htree : MerkleTree.buildTree hash leaves
      = { leaves := leaves, tree := MerkleTree.buildLevels hash leaves,
          root := some (MerkleTree.rootValue hash leaves) } := by
    unfold MerkleTree.buildTree
    rw [if_neg hlen0]
  rw [htree]
  refine ⟨MerkleTree.buildLevelsF_getD_zero hash leaves.length leaves, ?_, ?_⟩
  · intro k hk
    exact MerkleTree.buildLevelsF_levels_length hash leaves.length leaves k (le_refl _) hk
  · exact MerkleTree.buildLevelsF_getLast hash leaves.length leaves h (le_refl _)

/-- Witness for C3: the concrete tree over `[[5], [6], [7]]`, with the
halving invariant instantiated at `k = 0`. -/
theorem merkle_tree_level_invariants_witness :
    (MerkleTree.buildTree hLen [[5], [6], [7]]).tree.getD 0 [] = [[5], [6], [7]]
      ∧ ((MerkleTree.buildTree hLen [[5], [6], [7]]).tree.getD 1 []).length
          = (((MerkleTree.buildTree hLen [[5], [6], [7]]).tree.getD 0 []).length + 1) / 2
      ∧ (MerkleTree.buildTree hLen [[5], [6], [7]]).tree.getLast?
          = some [MerkleTree.rootValue hLen [[5], [6], [7]]] := by
  obtain ⟨a, b, c⟩ := merkle_tree_level_invariants hLen [[5], [6], [7]] (by decide)
  exact ⟨a, b 0 (by decide), c⟩

/-- C4 counterexample: the MerkleTree constructor invoked on the empty leaf
list does not fail at all — it returns normally with an empty `tree` and a
`null` root. -/
theorem constructor_empty_no_error :
    MerkleTree.ofLeafData hLen [] = Except.ok { leaves := [], tree := [], root := none } := rfl

/-- C4 amended: on empty input the MerkleTree constructor succeeds, setting
`tree = []` and `root = null`; the empty-input failure is raised earlier by
the pipeline, whose `setupAirdrop` throws `CSV contains no valid entries`
when the parsed leaf list is empty. -/
theorem empty_input_behavior (hash : List Nat → List Nat) :
    MerkleTree.ofLeafData hash [] = Except.ok { leaves := [], tree := [], root := none }
      ∧ setupAirdrop hash [] = Except.error ("CSV contains no valid entries") :=
  ⟨rfl, rfl⟩

/-- C5 counterexample: a concrete pipeline run emits an artifact whose single
`leaves` entry has exactly the fields `recipient`, `value` and `proof` — and
`index` is not among them. -/
theorem artifact_entries_no_index_field :
    (airdropJson hLen [⟨"0xab", "1"⟩]).toOption.map (fun a => (leafObjs a).map objKeys)
        = some [["recipient", "value", "proof"]]
      ∧ (["recipient", "value", "proof"].contains ("index")) = false :=
  ⟨rfl, by decide⟩

/-- C5 amended: every entry in the `leaves` list of the emitted artifact
carries exactly a `recipient`, a `value` and a `proof` field — no `index`
field is written; an entry's index is only implicit in its position. -/
theorem artifact_entries_fields (hash : List Nat → List Nat) (rows : List CsvRow)
    (artifact : Json) (h : airdropJson hash rows = Except.ok artifact) :
    ∀ j ∈ leafObjs artifact, objKeys j = ["recipient", "value", "proof"] := by
  unfold airdropJson at h
  split at h
  · exact absurd h (by simp)
  · rename_i setup hs
    split at h
    · exact absurd h (by simp)
    · rename_i ls hl
      injection h with h
      subst h
      intro j hj
      exact leavesJson_keys setup.tree setup.leafData 0 ls hl j hj

/-- Witness for amended C5: the concrete single-entry artifact's leaf object. -/
theorem artifact_entries_fields_witness :
    objKeys (Json.obj
        [("recipient", Json.str ("0xab")), ("value", Json.str ("1")),
         ("proof", Json.arr [])])
      = ["recipient", "value", "proof"] :=
  artifact_entries_fields hLen [⟨"0xab", "1"⟩]
    (Json.obj
      [("root", Json.str ("0x21")), ("totalSupply", Json.str ("1")),
       ("leaves", Json.arr
         [Json.obj
           [("recipient", Json.str ("0xab")), ("value", Json.str ("1")),
            ("proof", Json.arr [])]])])
    rfl
    (Json.obj
      [("recipient", Json.str ("0xab")), ("value", Json.str ("1")),
       ("proof", Json.arr [])])
    (List.mem_cons_self _ _)

/-- C6 counterexample: two amounts of `2^255` each sum to `2^256`, beyond
256-bit capacity, yet the pipeline run does not abort: it succeeds and
records `totalSupply = 2^256` exactly. -/
theorem pipeline_sum_overflow_no_abort :
    (setupAirdrop hLen
        [⟨"0xaa", "57896044618658097711785492504343953926634992332820282019728792003956564819968"⟩,
         ⟨"0xbb", "57896044618658097711785492504343953926634992332820282019728792003956564819968"⟩]).toOption.map
        (fun s => s.totalSupply) = some ((2 : Int) ^ 256)
      ∧ (2 : Int) ^ 256 - 1 < (2 : Int) ^ 256 :=
  ⟨by decide, by norm_num⟩

/-- C6 amended: the pipeline computes `totalSupply` as the exact
arbitrary-precision sum of all entry amounts; there is no 256-bit overflow
check, so a run whose amounts sum beyond `2^256 - 1` still emits that exact
sum (see the counterexample) — every successful run satisfies
`totalSupply = Σ amount_i`. -/
theorem setup_totalSupply_exact_sum (hash : List Nat → List Nat) (rows : List CsvRow)
    (s : SetupResult) (h : setupAirdrop hash rows = Except.ok s) :
    s.totalSupply = (s.leafData.map LeafData.value).sum := by
  unfold setupAirdrop at h
  split at h
  · exact absurd h (by simp)
  · rename_i ld hload
    split at h
    · exact absurd h (by simp)
    · split at h
      · exact absurd h (by simp)
      · rename_i t htree
        injection h with h
        subst h
        show ld.foldl (fun acc leaf => acc + leaf.value) 0 = (ld.map LeafData.value).sum
        rw [foldl_add_value ld 0, zero_add]

/-- Witness for amended C6: the one-entry run with amount 1. -/
theorem setup_totalSupply_exact_sum_witness :
    (SetupResult.mk [⟨"0xab", 1⟩] ⟨[[33]], [[[33]]], some [33]⟩ [33] 1).totalSupply
      = ((SetupResult.mk [⟨"0xab", 1⟩]
          ⟨[[33]], [[[33]]], some [33]⟩ [33] 1).leafData.map LeafData.value).sum :=
  setup_totalSupply_exact_sum hLen [⟨"0xab", "1"⟩]
    (SetupResult.mk [⟨"0xab", 1⟩] ⟨[[33]], [[[33]]], some [33]⟩ [33] 1) rfl

/-- C7 counterexample: a run whose second row has the non-numeric amount
`abc` aborts with the BigInt conversion error — and that error message
contains no digit at all, so it cannot reference the offending row's index
under any numbering convention. -/
theorem pipeline_nonnumeric_error_names_value :
    airdropJson hLen [⟨"0xaa", "5"⟩, ⟨"0xbb", "abc"⟩]
        = Except.error ("Cannot convert abc to a BigInt")
      ∧ ("Cannot convert abc to a BigInt").data.any Char.isDigit = false :=
  ⟨rfl, by decide⟩

/-- C7 amended: a row with a non-numeric amount (after any prefix of valid
rows) aborts the entire run — no artifact value is produced — with the BigInt
conversion error naming the offending value (not the row's index). -/
theorem pipeline_nonnumeric_aborts (hash : List Nat → List Nat)
    (pre : List CsvRow) (row : CsvRow) (post : List CsvRow)
    (hpre : ∃ ls, loadCSV pre = Except.ok ls)
    (ha : row.address ≠ "") (hm : row.amount ≠ "")
    (hnum : parseBigInt row.amount = none) :
    airdropJson hash (pre ++ row :: post)
      = Except.error ("Cannot convert " ++ row.amount ++ " to a BigInt") := by
  have h := loadCSV_nonnumeric pre row post hpre ha hm hnum
  unfold airdropJson setupAirdrop
  rw [h]

/-- Witness for amended C7: one valid row followed by the `abc` row. -/
theorem pipeline_nonnumeric_aborts_witness :
    airdropJson hLen ([⟨"0xaa", "5"⟩] ++ (⟨"0xbb", "abc"⟩ : CsvRow) :: [])
      = Except.error ("Cannot convert " ++ (CsvRow.mk "0xbb" "abc").amount ++ " to a BigInt") :=
  pipeline_nonnumeric_aborts hLen [⟨"0xaa", "5"⟩] ⟨"0xbb", "abc"⟩ []
    ⟨[⟨"0xaa", 5⟩], rfl⟩ (by decide) (by decide) rfl

/-- C8 counterexample: `encodeLeaf` accepts a recipient that decodes to a
single byte — far from 20 bytes — and happily returns a digest instead of
raising any error. -/
theorem encodeLeaf_short_address_ok :
    getBytes ("0x00") = some [0]
      ∧ MerkleTree.encodeLeaf hLen ("0x00") 0 = Except.ok [33] :=
  ⟨rfl, rfl⟩

/-- C8 amended: `encodeLeaf` performs no address-length validation at all:
for every recipient string that hex-decodes to any byte list whatsoever and
every amount in `[0, 2^256)`, it returns
`hash(addr_bytes || amount_bytes_big_endian(32))`; it fails only when the
recipient is not a valid `0x`-prefixed even-length hex string or the amount
is out of range. -/
theorem encodeLeaf_no_length_check (hash : List Nat → List Nat) (recipient : String)
    (value : Int) (addr : List Nat) (h1 : getBytes recipient = some addr)
    (h2 : 0 ≤ value) (h3 : value < (2 : Int) ^ 256) :
    MerkleTree.encodeLeaf hash recipient value
      = Except.ok (hash (addr ++ beBytes value.toNat 32)) := by
  unfold MerkleTree.encodeLeaf
  rw [h1]
  unfold toBeHexBytes
  rw [if_pos ⟨h2, by norm_num; exact h3⟩]

/-- Witness for amended C8: the one-byte recipient `0x00` with amount 0. -/
theorem encodeLeaf_no_length_check_witness :
    MerkleTree.encodeLeaf hLen ("0x00") 0 = Except.ok (hLen ([0] ++ beBytes (Int.toNat 0) 32)) :=
  encodeLeaf_no_length_check hLen ("0x00") 0 [0] rfl (by decide) (by decide)

/-- C9: with an empty proof, `verifyProof(leaf, [], index, root)` returns
true exactly when the leaf byte-equals the root, whatever the index. -/
theorem verifyProof_empty_proof_iff (hash : List Nat → List Nat) (leaf : List Nat)
    (index : Nat) (root : List Nat) :
    MerkleTree.verifyProof hash leaf [] index root = true ↔ leaf = root :=
  MerkleTree.bytesEqual_iff leaf root

theorem verifyLoop_index_mod (hash : List Nat → List Nat) :
    ∀ (proof : List (List Nat)) (leaf : List Nat) (index : Nat),
      MerkleTree.verifyLoop hash leaf proof index
        = MerkleTree.verifyLoop hash leaf proof (index % 2 ^ proof.length)
  | [], leaf, index => rfl
  | p :: ps, leaf, index => by
    have h1 : index % 2 ^ (p :: ps).length % 2 = index % 2 :=
      Nat.mod_mod_of_dvd index (dvd_pow_self 2 (by simp))
    have h2 : index % 2 ^ (p :: ps).length / 2 = index / 2 % 2 ^ ps.length := by
      rw [List.length_cons, pow_succ, mul_comm]
      exact Nat.mod_mul_right_div_self index 2 (2 ^ ps.length)
    simp only [MerkleTree.verifyLoop, h1, h2]
    exact verifyLoop_index_mod hash ps _ (index / 2)

/-- C10: only the low `proof.length` bits of the index influence
verification: `verifyProof(leaf, proof, index, root)` coincides with
`verifyProof(leaf, proof, index mod 2^proof.length, root)` for every leaf,
proof, index and root. -/
theorem verifyProof_index_mod (hash : List Nat → List Nat) (leaf : List Nat)
    (proof : List (List Nat)) (index : Nat) (root : List Nat) :
    MerkleTree.verifyProof hash leaf proof index root
      = MerkleTree.verifyProof hash leaf proof (index % 2 ^ proof.length) root := by
  unfold MerkleTree.verifyProof
  rw [verifyLoop_index_mod hash proof leaf index]
